import Mathlib

/-!
Verification of `tower-sessions-rorm-store`.

A shallow embedding of `src/lib.rs`: the `RormStore` session store backed by a
relational table.  The backing table is modelled as a list of rows; the rorm
query/insert/update/delete combinators become list operations; transactions
become "compute a new table, publish it only on commit".  Timestamps
(`OffsetDateTime`) are modelled as integers, and the current time is passed
explicitly where the code calls `OffsetDateTime::now_utc()`.

The session-management layer's types (`tower_sessions::session::{Id, Record}`
and `session_store::Error`) are external dependencies; they are modelled by
structures with the same shape.  `Id` wraps an `i128` whose `Display`/`FromStr`
pair is an injective string codec with a partial inverse (base64 in the real
crate); we use a simple injective codec with the same interface properties.
-/

namespace RormSessionStore

/-- Timestamps (`OffsetDateTime`), modelled as integers. -/
abbrev Time := Int

/-- A JSON value (`serde_json::Value`), modelled with a representative set of
constructors; the store treats the payload opaquely. -/
inductive Value where
  | null : Value
  | bool (b : Bool) : Value
  | num (n : Int) : Value
  | str (s : String) : Value
deriving DecidableEq, Repr

/-- The session payload, `HashMap<String, Value>`, modelled as an association
list. -/
abbrev SessionData := List (String × Value)

/-- `tower_sessions::session::Id`: a wrapper around an `i128`. -/
structure Id where
  val : Int
deriving DecidableEq, Repr

/-- The `Display` impl of `Id` (`id.to_string()` in the source): an injective
encoding of the integer into a string.  Negative values get a leading sign
character; the magnitude is encoded in unary so that the partial inverse is
easy to recognise. -/
def encodeId (i : Id) : String :=
  String.mk (if i.val < 0 then '-' :: List.replicate i.val.natAbs 'x'
             else List.replicate i.val.natAbs 'x')

/-- The `FromStr` impl of `Id` (`Id::from_str` in the source): the partial
inverse of `encodeId`, failing on strings outside the codec's image. -/
def decodeId (s : String) : Option Id :=
  if s.data.all (fun c => c == 'x') then some ⟨(s.data.length : Int)⟩
  else if s.data.headD 'x' = '-' ∧ s.data.tail ≠ [] ∧
      s.data.tail.all (fun c => c == 'x') then
    some ⟨-(s.data.tail.length : Int)⟩
  else none

theorem all_x_replicate (n : Nat) :
    (List.replicate n 'x').all (fun c => c == 'x') = true := by
  induction n with
  | zero => rfl
  | succ m ih => simp [List.replicate, List.all_cons, ih]

theorem decodeId_encodeId (i : Id) : decodeId (encodeId i) = some i := by
  obtain ⟨v⟩ := i
  unfold encodeId decodeId
  by_cases h : v < 0
  · have habs : v.natAbs ≠ 0 := by omega
    have hdata : (String.mk ('-' :: List.replicate v.natAbs 'x')).data
        = '-' :: List.replicate v.natAbs 'x' := rfl
    have h1 : (('-' :: List.replicate v.natAbs 'x').all fun c => c == 'x') = false := rfl
    have h3 : ('-' :: List.replicate v.natAbs 'x').tail = List.replicate v.natAbs 'x' := rfl
    simp only [h, if_true, hdata]
    rw [if_neg (by rw [h1]; exact Bool.false_ne_true)]
    rw [if_pos]
    · simp only [h3, List.length_replicate, Option.some.injEq, Id.mk.injEq]
      omega
    · refine ⟨rfl, ?_, ?_⟩
      · rw [h3]
        simp [habs, List.replicate_eq_nil_iff]
      · rw [h3]
        exact all_x_replicate v.natAbs
  · have hdata : (String.mk (List.replicate v.natAbs 'x')).data
        = List.replicate v.natAbs 'x' := rfl
    simp only [h, if_false, hdata]
    rw [if_pos (all_x_replicate v.natAbs)]
    simp only [List.length_replicate, Option.some.injEq, Id.mk.injEq]
    omega

/-- `tower_sessions::session::Record`: the in-memory session record. -/
structure Record where
  id : Id
  data : SessionData
  expiry_date : Time
deriving DecidableEq, Repr

/-- A persisted row of the caller's session table: the three columns the
`SessionModel` contract exposes (string primary key, expiry timestamp, JSON
payload). -/
structure Row where
  id : String
  expires_at : Time
  data : SessionData
deriving DecidableEq, Repr

/-- The backing table, as seen through the query interface. -/
abbrev Table := List Row

/-- `SessionModel::get_insert_patch`: construct a fresh row from the triple. -/
def get_insert_patch (id : String) (expires_at : Time) (data : SessionData) : Row :=
  ⟨id, expires_at, data⟩

/-- `SessionModel::get_session_data`: decompose a row into its triple. -/
def Row.get_session_data (r : Row) : String × Time × SessionData :=
  (r.id, r.expires_at, r.data)

/-- `query!(...).condition(primary.equals s).optional()`: the first row whose
primary key equals `s`. -/
def queryOptional (tbl : Table) (s : String) : Option Row :=
  tbl.find? (fun r => r.id == s)

/-- `insert!(...).single(patch)`: append a row to the table. -/
def insertRow (tbl : Table) (r : Row) : Table :=
  tbl ++ [r]

/-- `update!(...).condition(primary.equals s).set(expires_at).set(data)`:
overwrite the expiry and payload of every row whose primary key equals `s`. -/
def updateById (tbl : Table) (s : String) (e : Time) (d : SessionData) : Table :=
  tbl.map (fun r => if r.id == s then { r with expires_at := e, data := d } else r)

/-- `delete!(...).condition(primary.equals s)`: remove every row whose primary
key equals `s`; rorm reports the affected-row count, which the source
ignores, so zero matches is not an error. -/
def deleteById (tbl : Table) (s : String) : Table :=
  tbl.filter (fun r => !(r.id == s))

/-- `delete!(...).condition(expires_at.less_than now)`: remove every row whose
expiry is strictly below `now`. -/
def deleteExpiredRows (tbl : Table) (now : Time) : Table :=
  tbl.filter (fun r => !(decide (r.expires_at < now)))

/-- An opaque `rorm::Error`, carrying only its rendered message. -/
abbrev RormError := String

/-- An opaque `base64::DecodeSliceError`, carrying only its rendered message. -/
abbrev DecodeSliceError := String

/-- `RormStoreError`: the crate's error enum, deriving `thiserror::Error`. -/
inductive RormStoreError where
  | Database (err : RormError) : RormStoreError
  | DecodingFailed (err : DecodeSliceError) : RormStoreError
deriving DecidableEq, Repr

/-- The `Display` impl generated by `#[error("...")]` on `RormStoreError`. -/
def RormStoreError.render : RormStoreError → String
  | .Database e => "Database error: " ++ e
  | .DecodingFailed e => "Decoding of id failed: " ++ e

/-- `tower_sessions::session_store::Error`: the error enum the session layer
exposes to callers. -/
inductive SessionStoreError where
  | Encode (msg : String) : SessionStoreError
  | Decode (msg : String) : SessionStoreError
  | Backend (msg : String) : SessionStoreError
deriving DecidableEq, Repr

/-- `impl From<RormStoreError> for Error`: both variants are rendered and
wrapped in `Error::Backend`. -/
def RormStoreError.toSessionError (e : RormStoreError) : SessionStoreError :=
  .Backend e.render

/-- `RormStore::load`: query for the row whose primary key equals the encoded
id and whose expiry is strictly in the future of `now`; decode the stored id
string back into an `Id` on a hit. -/
def load (tbl : Table) (now : Time) (session_id : Id) :
    Except SessionStoreError (Option Record) :=
  match tbl.find? (fun r => r.id == encodeId session_id
      && decide (now < r.expires_at)) with
  | none => .ok none
  | some row =>
    match decodeId row.id with
    | none =>
        .error (RormStoreError.DecodingFailed ("output slice too small")).toSessionError
    | some id => .ok (some ⟨id, row.data, row.expires_at⟩)

/-- `RormStore::save`: inside a transaction, query for an existing row by id;
update its expiry and payload when present, insert the full triple when
absent, then commit.  The committed table is returned. -/
def save (tbl : Table) (session_record : Record) : Table :=
  match tbl.find? (fun r => r.id == encodeId session_record.id) with
  | some _ =>
      updateById tbl (encodeId session_record.id)
        session_record.expiry_date session_record.data
  | none =>
      insertRow tbl (get_insert_patch (encodeId session_record.id)
        session_record.expiry_date session_record.data)

/-- `RormStore::delete`: unconditional delete by primary key; never an error
on zero matches. -/
def delete (tbl : Table) (session_id : Id) : Except SessionStoreError Table :=
  .ok (deleteById tbl (encodeId session_id))

/-- `RormStore::delete_expired` (the `ExpiredDeletion` impl): one delete
statement removing every row whose expiry is strictly below `now`. -/
def delete_expired (tbl : Table) (now : Time) : Table :=
  deleteExpiredRows tbl now

/-- The candidate-id stream of `create`: the caller's provisional id first,
then the successive results of `Id::default()` (modelled by `gen`). -/
def candSeq (rec : Record) (gen : Nat → Id) : Nat → Id
  | 0 => rec.id
  | n + 1 => gen n

/-- The collision-retry loop of `RormStore::create`, run inside one
transaction over the snapshot `tbl`: at index `n` it queries for a row whose
primary key equals the encoded candidate `cand n`; on a miss it inserts the
patch and stops, on a hit it moves to the next candidate.  `fuel` bounds the
number of iterations unrolled; `none` means the loop is still running after
`fuel` iterations. -/
def createLoop (tbl : Table) (expiry : Time) (d : SessionData) (cand : Nat → Id)
    (n : Nat) : Nat → Option (Id × Table)
  | 0 => none
  | fuel + 1 =>
    match tbl.find? (fun r => r.id == encodeId (cand n)) with
    | some _ => createLoop tbl expiry d cand (n + 1) fuel
    | none =>
        some (cand n, insertRow tbl (get_insert_patch (encodeId (cand n)) expiry d))

/-- `RormStore::create` without backend failures: run the retry loop and, on
success, return the record with its final id together with the committed
table. -/
def create (tbl : Table) (session_record : Record) (gen : Nat → Id)
    (fuel : Nat) : Option (Record × Table) :=
  (createLoop tbl session_record.expiry_date session_record.data
      (candSeq session_record gen) 0 fuel).map
    (fun p => ({ session_record with id := p.1 }, p.2))

/-- Outcome of a `create` execution in which backend calls may fail: on
`failure` the transaction was dropped without commit, and the outcome carries
the caller's record (whose id the loop may have mutated) together with the
table as the caller observes it afterwards; on `success` it carries the
record and the committed table. -/
inductive CreateOutcome where
  | failure (rec : Record) (tbl : Table) : CreateOutcome
  | success (rec : Record) (tbl : Table) : CreateOutcome
deriving DecidableEq, Repr

/-- The retry loop of `create` with an explicit failure schedule: `sched k`
tells whether the `k`-th backend call (counting the transaction start as call
0) returns an error.  Each iteration spends one call on the existence query;
the final iteration additionally spends one on the insert and one on the
commit.  The record's id is overwritten with the current candidate exactly as
`session_record.id = Id::default()` does. -/
def createFullLoop (tbl : Table) (expiry : Time) (d : SessionData)
    (cand : Nat → Id) (sched : Nat → Bool) (rec : Record) (n k : Nat) :
    Nat → Option CreateOutcome
  | 0 => none
  | fuel + 1 =>
    if sched k then some (.failure { rec with id := cand n } tbl)
    else
      match tbl.find? (fun r => r.id == encodeId (cand n)) with
      | some _ =>
        createFullLoop tbl expiry d cand sched { rec with id := cand n } (n + 1) (k + 1) fuel
      | none =>
        if sched (k + 1) then some (.failure { rec with id := cand n } tbl)
        else if sched (k + 2) then some (.failure { rec with id := cand n } tbl)
        else some (.success { rec with id := cand n }
          (insertRow tbl (get_insert_patch (encodeId (cand n)) expiry d)))

/-- `RormStore::create` under a failure schedule: call 0 is
`start_transaction`; the loop then consumes the remaining calls. -/
def createFull (tbl : Table) (session_record : Record) (gen : Nat → Id)
    (sched : Nat → Bool) (fuel : Nat) : Option CreateOutcome :=
  if sched 0 then some (.failure session_record tbl)
  else createFullLoop tbl session_record.expiry_date session_record.data
    (candSeq session_record gen) sched session_record 0 1 fuel

/-- One table-mutating call of the store's public interface (`load` leaves the
table unchanged and is included as a no-op). -/
inductive Op where
  | opCreate (rec : Record) (gen : Nat → Id) (fuel : Nat) : Op
  | opSave (rec : Record) : Op
  | opLoad (i : Id) (now : Time) : Op
  | opDelete (i : Id) : Op
  | opDeleteExpired (now : Time) : Op

/-- Effect of one operation on the table (a `create` still inside its loop
has committed nothing). -/
def applyOp (tbl : Table) : Op → Table
  | .opCreate rec gen fuel =>
    match create tbl rec gen fuel with
    | some p => p.2
    | none => tbl
  | .opSave rec => save tbl rec
  | .opLoad _ _ => tbl
  | .opDelete i => deleteById tbl (encodeId i)
  | .opDeleteExpired now => deleteExpiredRows tbl now

/-- Run a sequence of operations left to right. -/
def execOps (tbl : Table) : List Op → Table
  | [] => tbl
  | op :: ops => execOps (applyOp tbl op) ops

/-- No two rows of the table share a primary key. -/
def uniqueIds (tbl : Table) : Prop :=
  (tbl.map Row.id).Nodup

/-- `RormStore<S>`: a database handle plus a zero-sized marker for the row
type; `Db` stands for `rorm::Database`. -/
structure RormStore (Db : Type) where
  db : Db

/-- The `Debug` impl of `RormStore`: `write!(f, "")` appends nothing to the
formatter's buffer. -/
def RormStore.fmt {Db : Type} (_self : RormStore Db) (buf : String) : String :=
  buf ++ ""

/-- The full debug rendering of a store: what `format!("{store:?}")`
produces. -/
def RormStore.debugOutput {Db : Type} (self : RormStore Db) : String :=
  self.fmt ""

/-! ## Supporting lemmas -/

theorem updateById_map_id (tbl : Table) (s : String) (e : Time) (d : SessionData) :
    (updateById tbl s e d).map Row.id = tbl.map Row.id := by
  unfold updateById
  rw [List.map_map]
  apply List.map_congr_left
  intro r _
  obtain ⟨rid, re, rd⟩ := r
  by_cases h : rid = s <;> simp [h]

theorem updateById_idem (tbl : Table) (s : String) (e : Time) (d : SessionData) :
    updateById (updateById tbl s e d) s e d = updateById tbl s e d := by
  unfold updateById
  rw [List.map_map]
  apply List.map_congr_left
  intro r _
  obtain ⟨rid, re, rd⟩ := r
  by_cases h : rid = s <;> simp [h]

theorem find?_id_insert_fresh (tbl : Table) (s : String) (e : Time) (d : SessionData)
    (h : tbl.find? (fun r => r.id == s) = none) :
    (insertRow tbl (get_insert_patch s e d)).find? (fun r => r.id == s)
      = some (get_insert_patch s e d) := by
  unfold insertRow get_insert_patch
  rw [List.find?_append, h]
  simp

theorem updateById_insert_fresh (tbl : Table) (s : String) (e : Time) (d : SessionData)
    (h : tbl.find? (fun r => r.id == s) = none) :
    updateById (insertRow tbl (get_insert_patch s e d)) s e d
      = insertRow tbl (get_insert_patch s e d) := by
  unfold updateById insertRow get_insert_patch
  rw [List.map_append]
  have hall := List.find?_eq_none.mp h
  congr 1
  · conv_rhs => rw [show tbl = tbl.map (fun r => r) from (List.map_id' tbl).symm]
    apply List.map_congr_left
    intro r hr
    simp [hall r hr]
  · simp

theorem find?_isSome_of_mem {p : Row → Bool} {tbl : Table} {r : Row}
    (hmem : r ∈ tbl) (hp : p r = true) : ∃ r', tbl.find? p = some r' := by
  cases hfind : tbl.find? p with
  | some r' => exact ⟨r', rfl⟩
  | none => exact absurd hp (by simpa using List.find?_eq_none.mp hfind r hmem)

theorem save_eq_update (tbl : Table) (rec : Record) (r0 : Row)
    (h : tbl.find? (fun r => r.id == encodeId rec.id) = some r0) :
    save tbl rec = updateById tbl (encodeId rec.id) rec.expiry_date rec.data := by
  unfold save; rw [h]

theorem save_eq_insert (tbl : Table) (rec : Record)
    (h : tbl.find? (fun r => r.id == encodeId rec.id) = none) :
    save tbl rec
      = insertRow tbl (get_insert_patch (encodeId rec.id) rec.expiry_date rec.data) := by
  unfold save; rw [h]

theorem createLoop_some_spec (tbl : Table) (e : Time) (d : SessionData)
    (cand : Nat → Id) :
    ∀ fuel n i tbl', createLoop tbl e d cand n fuel = some (i, tbl') →
      tbl.find? (fun r => r.id == encodeId i) = none ∧
      tbl' = insertRow tbl (get_insert_patch (encodeId i) e d) ∧
      ∃ m, n ≤ m ∧ i = cand m := by
  intro fuel
  induction fuel with
  | zero => intro n i tbl' hc; cases hc
  | succ f ih =>
    intro n i tbl' hc
    unfold createLoop at hc
    cases hfind : tbl.find? (fun r => r.id == encodeId (cand n)) with
    | some r0 =>
      simp only [hfind] at hc
      obtain ⟨h1, h2, m, hm, hi⟩ := ih (n + 1) i tbl' hc
      exact ⟨h1, h2, m, by omega, hi⟩
    | none =>
      simp only [hfind] at hc
      obtain ⟨rfl, rfl⟩ := Prod.mk.injEq .. ▸ Option.some.inj hc
      exact ⟨hfind, rfl, n, le_refl n, rfl⟩

theorem createLoop_some_of_fresh (tbl : Table) (e : Time) (d : SessionData)
    (cand : Nat → Id) :
    ∀ (k n m : Nat), n ≤ m → m ≤ n + k →
      tbl.find? (fun r => r.id == encodeId (cand m)) = none →
      ∃ fuel out, createLoop tbl e d cand n fuel = some out := by
  intro k
  induction k with
  | zero =>
    intro n m h1 h2 hfresh
    have hnm : m = n := by omega
    subst hnm
    refine ⟨1, (cand m, insertRow tbl (get_insert_patch (encodeId (cand m)) e d)), ?_⟩
    unfold createLoop
    rw [hfresh]
  | succ k ih =>
    intro n m h1 h2 hfresh
    cases hfind : tbl.find? (fun r => r.id == encodeId (cand n)) with
    | none =>
      refine ⟨1, (cand n, insertRow tbl (get_insert_patch (encodeId (cand n)) e d)), ?_⟩
      unfold createLoop
      rw [hfind]
    | some r0 =>
      have hne : n ≠ m := by
        rintro rfl
        rw [hfind] at hfresh
        cases hfresh
      obtain ⟨fuel, out, hout⟩ := ih (n + 1) m (by omega) (by omega) hfresh
      refine ⟨fuel + 1, out, ?_⟩
      unfold createLoop
      rw [hfind]
      exact hout

theorem uniqueIds_insert_fresh (tbl : Table) (s : String) (e : Time) (d : SessionData)
    (h : tbl.find? (fun r => r.id == s) = none) (hu : uniqueIds tbl) :
    uniqueIds (insertRow tbl (get_insert_patch s e d)) := by
  unfold uniqueIds insertRow get_insert_patch
  rw [List.map_append]
  refine List.Nodup.append hu (by simp) ?_
  intro a ha hb
  have hs : a = s := by simpa using hb
  obtain ⟨r, hr, hid⟩ := List.mem_map.mp ha
  have hbeq : (r.id == s) = true := by simp [hid, hs]
  exact absurd hbeq (List.find?_eq_none.mp h r hr)

theorem uniqueIds_updateById (tbl : Table) (s : String) (e : Time) (d : SessionData)
    (hu : uniqueIds tbl) : uniqueIds (updateById tbl s e d) := by
  unfold uniqueIds
  rw [updateById_map_id]
  exact hu

theorem uniqueIds_filter (tbl : Table) (p : Row → Bool) (hu : uniqueIds tbl) :
    uniqueIds (tbl.filter p) := by
  unfold uniqueIds
  exact ((List.filter_sublist tbl).map Row.id).nodup hu

theorem uniqueIds_save (tbl : Table) (rec : Record) (hu : uniqueIds tbl) :
    uniqueIds (save tbl rec) := by
  cases h : tbl.find? (fun r => r.id == encodeId rec.id) with
  | some r0 => rw [save_eq_update tbl rec r0 h]; exact uniqueIds_updateById tbl _ _ _ hu
  | none => rw [save_eq_insert tbl rec h]; exact uniqueIds_insert_fresh tbl _ _ _ h hu

theorem uniqueIds_applyOp (tbl : Table) (op : Op) (hu : uniqueIds tbl) :
    uniqueIds (applyOp tbl op) := by
  cases op with
  | opCreate rec gen fuel =>
    cases hc : create tbl rec gen fuel with
    | none =>
      have happ : applyOp tbl (Op.opCreate rec gen fuel) = tbl := by
        show (match create tbl rec gen fuel with
          | some p => p.2
          | none => tbl) = tbl
        rw [hc]
      rw [happ]; exact hu
    | some p =>
      have happ : applyOp tbl (Op.opCreate rec gen fuel) = p.2 := by
        show (match create tbl rec gen fuel with
          | some p => p.2
          | none => tbl) = p.2
        rw [hc]
      rw [happ]
      unfold create at hc
      cases hl : createLoop tbl rec.expiry_date rec.data (candSeq rec gen) 0 fuel with
      | none => rw [hl] at hc; exact Option.noConfusion hc
      | some q =>
        rw [hl] at hc
        obtain ⟨hfresh, ht, -⟩ :=
          createLoop_some_spec tbl _ _ _ fuel 0 q.1 q.2 (by rw [hl])
        have ht2 : p.2 = q.2 := by
          have := congrArg (fun o => Option.map Prod.snd o) hc
          simpa using this.symm
        rw [ht2, ht]
        exact uniqueIds_insert_fresh tbl _ _ _ hfresh hu
  | opSave rec => exact uniqueIds_save tbl rec hu
  | opLoad i now => exact hu
  | opDelete i => exact uniqueIds_filter tbl _ hu
  | opDeleteExpired now => exact uniqueIds_filter tbl _ hu

theorem uniqueIds_execOps (ops : List Op) :
    ∀ tbl, uniqueIds tbl → uniqueIds (execOps tbl ops) := by
  induction ops with
  | nil => intro tbl hu; exact hu
  | cons op ops ih =>
    intro tbl hu
    exact ih _ (uniqueIds_applyOp tbl op hu)

/-! ## Claim theorems -/

/-- C5: `save` is idempotent with respect to final table state: for every
record, saving the identical (id, expiry, data) triple twice leaves the row
for that id identical to saving once, whether or not a row existed before. -/
theorem save_idempotent (tbl : Table) (session_record : Record) :
    save (save tbl session_record) session_record = save tbl session_record := by
  cases h : tbl.find? (fun r => r.id == encodeId session_record.id) with
  | some r0 =>
    have h1 : save tbl session_record
        = updateById tbl (encodeId session_record.id)
            session_record.expiry_date session_record.data := by
      unfold save; rw [h]
    have hmem : r0 ∈ tbl := List.mem_of_find?_eq_some h
    have hp := List.find?_some h
    have hmem2 : ({ r0 with
        expires_at := session_record.expiry_date
        data := session_record.data } : Row)
        ∈ updateById tbl (encodeId session_record.id)
            session_record.expiry_date session_record.data := by
      unfold updateById
      exact List.mem_map.mpr ⟨r0, hmem, if_pos hp⟩
    obtain ⟨r1, h2⟩ := find?_isSome_of_mem
      (p := fun r => r.id == encodeId session_record.id) hmem2 (by exact hp)
    have h3 : save (updateById tbl (encodeId session_record.id)
          session_record.expiry_date session_record.data) session_record
        = updateById (updateById tbl (encodeId session_record.id)
            session_record.expiry_date session_record.data)
            (encodeId session_record.id)
            session_record.expiry_date session_record.data := by
      unfold save; rw [h2]
    rw [h1, h3, updateById_idem]
  | none =>
    have h1 : save tbl session_record
        = insertRow tbl (get_insert_patch (encodeId session_record.id)
            session_record.expiry_date session_record.data) := by
      unfold save; rw [h]
    have h2 := find?_id_insert_fresh tbl (encodeId session_record.id)
      session_record.expiry_date session_record.data h
    have h3 : save (insertRow tbl (get_insert_patch (encodeId session_record.id)
          session_record.expiry_date session_record.data)) session_record
        = updateById (insertRow tbl (get_insert_patch (encodeId session_record.id)
            session_record.expiry_date session_record.data))
            (encodeId session_record.id)
            session_record.expiry_date session_record.data := by
      unfold save; rw [h2]
    rw [h1, h3]
    exact updateById_insert_fresh tbl _ _ _ h

/-- C7: `delete(id)` removes the row with that primary key unconditionally
(regardless of expiry), succeeds without error even when zero rows match, and
a second `delete(id)` also succeeds and leaves no row for that id while every
other row survives. -/
theorem delete_idempotent_unconditional (tbl : Table) (session_id : Id) :
    ∃ tbl₁, delete tbl session_id = .ok tbl₁ ∧
      delete tbl₁ session_id = .ok tbl₁ ∧
      (∀ r ∈ tbl₁, r.id ≠ encodeId session_id) ∧
      (∀ r ∈ tbl, r.id ≠ encodeId session_id → r ∈ tbl₁) := by
  refine ⟨deleteById tbl (encodeId session_id), rfl, ?_, ?_, ?_⟩
  · unfold delete deleteById
    congr 1
    rw [List.filter_filter]
    apply List.filter_congr
    intro r _
    by_cases h : r.id == encodeId session_id <;> simp [h]
  · intro r hr
    have := List.of_mem_filter hr
    simpa using this
  · intro r hr hne
    exact List.mem_filter.mpr ⟨hr, by simpa using hne⟩

/-- C8: after `delete_expired` at time `now`, no row with expiry strictly
below `now` remains, every row with expiry at or above `now` is still present,
and the surviving rows are the original rows unchanged (a sublist). -/
theorem delete_expired_purges_exactly (tbl : Table) (now : Time) :
    (∀ r ∈ delete_expired tbl now, ¬ r.expires_at < now) ∧
    (∀ r ∈ tbl, now ≤ r.expires_at → r ∈ delete_expired tbl now) ∧
    (delete_expired tbl now).Sublist tbl := by
  refine ⟨?_, ?_, List.filter_sublist tbl⟩
  · intro r hr
    have := List.of_mem_filter hr
    simpa using this
  · intro r hr hle
    refine List.mem_filter.mpr ⟨hr, ?_⟩
    cases hdec : decide (r.expires_at < now) with
    | false => rfl
    | true => exact absurd (of_decide_eq_true hdec) (not_lt.mpr hle)

/-- C3: a decode failure (stored id string that cannot be parsed back into the
session layer's id type) surfaces to the caller as an error value that differs
from the one produced by any backend query failure, so the caller can
distinguish the two.  Both are wrapped in the `Backend` constructor of the
session layer's error type; they stay distinguishable because the rendered
messages carry distinct prefixes. -/
theorem decode_error_distinct_from_backend (dbErr : RormError) (decErr : DecodeSliceError) :
    (RormStoreError.Database dbErr).toSessionError
        = .Backend ("Database error: " ++ dbErr) ∧
    (RormStoreError.DecodingFailed decErr).toSessionError
        = .Backend ("Decoding of id failed: " ++ decErr) ∧
    (RormStoreError.Database dbErr).toSessionError ≠
      (RormStoreError.DecodingFailed decErr).toSessionError := by
  refine ⟨rfl, rfl, ?_⟩
  unfold RormStoreError.toSessionError RormStoreError.render
  intro h
  have h2 : "Database error: " ++ dbErr = "Decoding of id failed: " ++ decErr := by
    simpa using h
  have h3 := congrArg String.data h2
  simp [String.data_append] at h3

/-- C10: the `Debug` implementation of the store writes nothing to the
formatter, for every store instance and every database handle: the debug
representation is the empty string and exposes no internal state. -/
theorem debug_impl_reveals_nothing {Db : Type} (store : RormStore Db) (buf : String) :
    RormStore.fmt store buf = buf ∧ RormStore.debugOutput store = "" := by
  constructor
  · exact String.append_empty buf
  · rfl

theorem load_eq_of_find_none (tbl : Table) (now : Time) (session_id : Id)
    (h : tbl.find? (fun r => r.id == encodeId session_id
        && decide (now < r.expires_at)) = none) :
    load tbl now session_id = .ok none := by
  unfold load; rw [h]

theorem load_eq_of_find_some (tbl : Table) (now : Time) (session_id : Id) (row : Row)
    (h : tbl.find? (fun r => r.id == encodeId session_id
        && decide (now < r.expires_at)) = some row)
    (hdec : decodeId row.id = some session_id) :
    load tbl now session_id = .ok (some ⟨session_id, row.data, row.expires_at⟩) := by
  unfold load
  rw [h]
  simp only [hdec]

/-- C1: `load(id)` at time `now` answers `Ok (some record)` exactly when a row
with that primary key exists whose expiry is strictly greater than `now`, and
`Ok none` otherwise — covering both a row that never existed and a row whose
expiry is at or before `now`. -/
theorem load_some_iff_live_row (tbl : Table) (now : Time) (session_id : Id) :
    ((∃ rec, load tbl now session_id = .ok (some rec)) ↔
      ∃ r ∈ tbl, r.id = encodeId session_id ∧ now < r.expires_at) ∧
    (load tbl now session_id = .ok none ↔
      ¬ ∃ r ∈ tbl, r.id = encodeId session_id ∧ now < r.expires_at) := by
  cases hfind : tbl.find? (fun r => r.id == encodeId session_id
      && decide (now < r.expires_at)) with
  | none =>
    have hL := load_eq_of_find_none tbl now session_id hfind
    have hall := List.find?_eq_none.mp hfind
    have hno : ¬ ∃ r ∈ tbl, r.id = encodeId session_id ∧ now < r.expires_at := by
      rintro ⟨r, hr, hid, hlt⟩
      exact hall r hr (by simp [hid, hlt])
    constructor
    · constructor
      · rintro ⟨rec, hrec⟩
        rw [hL] at hrec
        simp at hrec
      · intro hex
        exact absurd hex hno
    · exact ⟨fun _ => hno, fun _ => hL⟩
  | some row =>
    have hp := List.find?_some hfind
    simp only [Bool.and_eq_true, beq_iff_eq, decide_eq_true_eq] at hp
    have hmem := List.mem_of_find?_eq_some hfind
    have hdec : decodeId row.id = some session_id := by
      rw [hp.1]; exact decodeId_encodeId session_id
    have hL := load_eq_of_find_some tbl now session_id row hfind hdec
    have hex : ∃ r ∈ tbl, r.id = encodeId session_id ∧ now < r.expires_at :=
      ⟨row, hmem, hp.1, hp.2⟩
    constructor
    · constructor
      · intro _
        exact hex
      · intro _
        exact ⟨⟨session_id, row.data, row.expires_at⟩, hL⟩
    · constructor
      · intro hnone
        rw [hL] at hnone
        simp at hnone
      · intro hno
        exact absurd hex hno

/-- C2: at most one row exists per id at any time — `uniqueIds` is preserved
by every sequence of store operations — and on every successful `create` the
record's final id does not collide with any row visible at the
existence-check time. -/
theorem create_id_unique_invariant :
    (∀ (tbl : Table) (session_record : Record) (gen : Nat → Id) (fuel : Nat)
        (rec' : Record) (tbl' : Table),
        create tbl session_record gen fuel = some (rec', tbl') →
        tbl.find? (fun r => r.id == encodeId rec'.id) = none) ∧
    (∀ (ops : List Op) (tbl : Table), uniqueIds tbl → uniqueIds (execOps tbl ops)) := by
  constructor
  · intro tbl rec gen fuel rec' tbl' hc
    unfold create at hc
    cases hl : createLoop tbl rec.expiry_date rec.data (candSeq rec gen) 0 fuel with
    | none => rw [hl] at hc; exact Option.noConfusion hc
    | some q =>
      obtain ⟨i, t0⟩ := q
      rw [hl] at hc
      simp only [Option.map_some', Option.some.injEq, Prod.mk.injEq] at hc
      obtain ⟨hrec, htbl⟩ := hc
      obtain ⟨hfresh, -, -⟩ :=
        createLoop_some_spec tbl _ _ _ fuel 0 i t0 (by rw [hl])
      rw [← hrec]
      exact hfresh
  · exact fun ops tbl hu => uniqueIds_execOps ops tbl hu

/-- C9: `create`'s collision-retry loop has no iteration bound: it terminates
(for some amount of fuel) exactly when some generated candidate id — possibly
the caller's original one — has no existing row at its check, and when every
candidate collides it returns `none` (still looping) for every amount of
fuel. -/
theorem create_retry_unbounded (tbl : Table) (session_record : Record) (gen : Nat → Id) :
    ((∃ fuel out, create tbl session_record gen fuel = some out) ↔
      (∃ n, tbl.find? (fun r =>
        r.id == encodeId (candSeq session_record gen n)) = none)) ∧
    ((∀ n, tbl.find? (fun r =>
        r.id == encodeId (candSeq session_record gen n)) ≠ none) →
      ∀ fuel, create tbl session_record gen fuel = none) := by
  have hiff : (∃ fuel out, create tbl session_record gen fuel = some out) ↔
      (∃ n, tbl.find? (fun r =>
        r.id == encodeId (candSeq session_record gen n)) = none) := by
    constructor
    · rintro ⟨fuel, out, hout⟩
      unfold create at hout
      cases hl : createLoop tbl session_record.expiry_date session_record.data
          (candSeq session_record gen) 0 fuel with
      | none => rw [hl] at hout; exact Option.noConfusion hout
      | some q =>
        obtain ⟨hfresh, -, m, -, hi⟩ :=
          createLoop_some_spec tbl _ _ _ fuel 0 q.1 q.2 (by rw [hl])
        refine ⟨m, ?_⟩
        rw [← hi]
        exact hfresh
    · rintro ⟨n, hfresh⟩
      obtain ⟨fuel, out, hout⟩ :=
        createLoop_some_of_fresh tbl session_record.expiry_date session_record.data
          (candSeq session_record gen) n 0 n (Nat.zero_le n) (by omega) hfresh
      refine ⟨fuel, ({ session_record with id := out.1 }, out.2), ?_⟩
      unfold create
      rw [hout]
      rfl
  refine ⟨hiff, ?_⟩
  intro hcoll fuel
  cases hc : create tbl session_record gen fuel with
  | none => rfl
  | some out =>
    obtain ⟨n, hfr⟩ := hiff.mp ⟨fuel, out, hc⟩
    exact absurd hfr (hcoll n)

/-- C6: for a record whose id has no existing row, `save` alone produces the
same final table as a collision-free `create` followed by `save` with the same
(id, expiry, data) values. -/
theorem save_converges_with_create (tbl : Table) (session_record : Record)
    (gen : Nat → Id) (fuel : Nat)
    (h : tbl.find? (fun r => r.id == encodeId session_record.id) = none) :
    ∃ tbl₁, create tbl session_record gen (fuel + 1) = some (session_record, tbl₁) ∧
      save tbl₁ session_record = save tbl session_record := by
  have h0 : tbl.find? (fun r =>
      r.id == encodeId (candSeq session_record gen 0)) = none := h
  refine ⟨insertRow tbl (get_insert_patch (encodeId session_record.id)
    session_record.expiry_date session_record.data), ?_, ?_⟩
  · unfold create createLoop
    rw [h0]
    rfl
  · rw [save_eq_insert tbl session_record h,
      save_eq_update _ session_record _ (find?_id_insert_fresh tbl _ _ _ h)]
    exact updateById_insert_fresh tbl _ _ _ h

/-- Witness record for the convergence theorem. -/
def recW6 : Record := ⟨⟨1⟩, [], 10⟩

/-- Witness id generator for the convergence theorem. -/
def genW6 : Nat → Id := fun _ => ⟨1⟩

/-- `save`/`create` convergence witnessed on an empty table at a concrete
record. -/
theorem save_converges_with_create_witness :
    ∃ tbl₁, create [] recW6 genW6 1 = some (recW6, tbl₁) ∧
      save tbl₁ recW6 = save [] recW6 :=
  save_converges_with_create [] recW6 genW6 0 rfl

theorem createFullLoop_failure_unchanged (tbl : Table) (e : Time) (d : SessionData)
    (cand : Nat → Id) (sched : Nat → Bool) :
    ∀ fuel rec n k rec' tbl',
      createFullLoop tbl e d cand sched rec n k fuel = some (.failure rec' tbl') →
      tbl' = tbl := by
  intro fuel
  induction fuel with
  | zero => intro rec n k rec' tbl' hc; cases hc
  | succ f ih =>
    intro rec n k rec' tbl' hc
    unfold createFullLoop at hc
    cases hs : sched k with
    | true =>
      rw [hs, if_pos rfl] at hc
      simp only [Option.some.injEq, CreateOutcome.failure.injEq] at hc
      exact hc.2.symm
    | false =>
      rw [hs, if_neg Bool.false_ne_true] at hc
      cases hfind : tbl.find? (fun r => r.id == encodeId (cand n)) with
      | some r0 =>
        simp only [hfind] at hc
        exact ih _ (n + 1) (k + 1) rec' tbl' hc
      | none =>
        simp only [hfind] at hc
        cases hs1 : sched (k + 1) with
        | true =>
          rw [hs1, if_pos rfl] at hc
          simp only [Option.some.injEq, CreateOutcome.failure.injEq] at hc
          exact hc.2.symm
        | false =>
          rw [hs1, if_neg Bool.false_ne_true] at hc
          cases hs2 : sched (k + 2) with
          | true =>
            rw [hs2, if_pos rfl] at hc
            simp only [Option.some.injEq, CreateOutcome.failure.injEq] at hc
            exact hc.2.symm
          | false =>
            rw [hs2, if_neg Bool.false_ne_true] at hc
            exact CreateOutcome.noConfusion (Option.some.inj hc)

/-- Witness table for the aborted-create theorem: one row occupying the
encoded id 1. -/
def tblC4 : Table := [get_insert_patch (encodeId ⟨1⟩) 10 []]

/-- Witness record for the aborted-create theorem. -/
def recC4 : Record := ⟨⟨1⟩, [], 10⟩

/-- Witness id generator for the aborted-create theorem: always id 2. -/
def genC4 : Nat → Id := fun _ => ⟨2⟩

/-- Witness failure schedule for the aborted-create theorem: the third
backend call (the second existence query) fails. -/
def schedC4 : Nat → Bool := fun k => k == 2

/-- C4: whenever `create` fails (transaction start, existence query, insert or
commit returns an error), the transaction is aborted so the table is left
unchanged and no row is persisted; yet there is a failing execution in which
the caller's record id has been mutated away from its original value. -/
theorem create_failure_leaves_table_unchanged :
    (∀ (tbl : Table) (session_record : Record) (gen : Nat → Id) (sched : Nat → Bool)
        (fuel : Nat) (rec' : Record) (tbl' : Table),
        createFull tbl session_record gen sched fuel = some (.failure rec' tbl') →
        tbl' = tbl) ∧
    (∃ (tbl : Table) (rec rec' : Record) (gen : Nat → Id) (sched : Nat → Bool)
        (fuel : Nat),
        createFull tbl rec gen sched fuel = some (.failure rec' tbl) ∧
        rec'.id ≠ rec.id) := by
  constructor
  · intro tbl rec gen sched fuel rec' tbl' hc
    unfold createFull at hc
    cases hs : sched 0 with
    | true =>
      rw [hs, if_pos rfl] at hc
      simp only [Option.some.injEq, CreateOutcome.failure.injEq] at hc
      exact hc.2.symm
    | false =>
      rw [hs, if_neg Bool.false_ne_true] at hc
      exact createFullLoop_failure_unchanged tbl _ _ _ _ fuel rec 0 1 rec' tbl' hc
  · exact ⟨tblC4, recC4, ⟨⟨2⟩, [], 10⟩, genC4, schedC4, 2, by decide, by decide⟩

end RormSessionStore
